import Mathlib

/-!
Verification development for the go-money repository: a currency-tagged
arbitrary-precision fixed-point numeric type.  The Go sources
(`money.go`, `formatter.go`, `currency.go`) are shallowly embedded below:
pure functions become Lean functions, Go panics become `Option`/`Except`
failures (`none` / `.error`), and the arbitrary-precision decimal engine
(an external dependency of the repository, not part of its sources) is
modelled from the specification's description of its semantics.
-/

/-- Currency type tag (`CurrType` in currency.go). -/
inductive CurrType where
  | FIAT
  | CRYPTO
  | LOYALTY
  | REWARD
  | GAME
  | POINTS
  | UNKNOWN
deriving DecidableEq, Repr

/-- Currency metadata record (`Currency` in currency.go).  The Go field
`Type` is called `ctype` here because `Type` is reserved in Lean. -/
structure Currency where
  ctype : CurrType
  code : String
  fraction : Int
  grapheme : String
  template : String
  decPoint : String
  thousand : String
deriving DecidableEq, Repr

/-- Sentinel code used when a Money's currency is not yet known
(`UnknownCurrencyCode` in currency.go). -/
def UnknownCurrencyCode : String := "???"

/-- First quarter of the static currency table (`currencies` in
currency.go), split for elaboration speed; see `currencies`. -/
def currenciesA : List (String × Currency) := [
  ("AED", ⟨.FIAT, "AED", 2, ".د.إ", "1 $", ".", ","⟩),
  ("AFN", ⟨.FIAT, "AFN", 2, "؋", "1 $", ".", ","⟩),
  ("ALL", ⟨.FIAT, "ALL", 2, "L", "$1", ".", ","⟩),
  ("AMD", ⟨.FIAT, "AMD", 2, "դր.", "1 $", ".", ","⟩),
  ("ANG", ⟨.FIAT, "ANG", 2, "ƒ", "$1", ".", ","⟩),
  ("ARS", ⟨.FIAT, "ARS", 2, "$", "$1", ".", ","⟩),
  ("AUD", ⟨.FIAT, "AUD", 2, "$", "$1", ".", ","⟩),
  ("AWG", ⟨.FIAT, "AWG", 2, "ƒ", "$1", ".", ","⟩),
  ("AZN", ⟨.FIAT, "AZN", 2, "₼", "$1", ".", ","⟩),
  ("BAM", ⟨.FIAT, "BAM", 2, "KM", "$1", ".", ","⟩),
  ("BBD", ⟨.FIAT, "BBD", 2, "$", "$1", ".", ","⟩),
  ("BGN", ⟨.FIAT, "BGN", 2, "лв", "$1", ".", ","⟩),
  ("BHD", ⟨.FIAT, "BHD", 3, ".د.ب", "1 $", ".", ","⟩),
  ("BMD", ⟨.FIAT, "BMD", 2, "$", "$1", ".", ","⟩),
  ("BND", ⟨.FIAT, "BND", 2, "$", "$1", ".", ","⟩),
  ("BOB", ⟨.FIAT, "BOB", 2, "Bs.", "$1", ".", ","⟩),
  ("BRL", ⟨.FIAT, "BRL", 2, "R$", "$1", ".", ","⟩),
  ("BSD", ⟨.FIAT, "BSD", 2, "$", "$1", ".", ","⟩),
  ("BWP", ⟨.FIAT, "BWP", 2, "P", "$1", ".", ","⟩),
  ("BYN", ⟨.FIAT, "BYN", 2, "p.", "1 $", ".", ","⟩),
  ("BYR", ⟨.FIAT, "BYR", 0, "p.", "1 $", ".", ","⟩),
  ("BZD", ⟨.FIAT, "BZD", 2, "BZ$", "$1", ".", ","⟩),
  ("CAD", ⟨.FIAT, "CAD", 2, "$", "$1", ".", ","⟩),
  ("CLP", ⟨.FIAT, "CLP", 0, "$", "$1", ".", ","⟩),
  ("CNY", ⟨.FIAT, "CNY", 2, "元", "1 $", ".", ","⟩),
  ("COP", ⟨.FIAT, "COP", 0, "$", "$1", ".", ","⟩),
  ("CRC", ⟨.FIAT, "CRC", 2, "₡", "$1", ".", ","⟩),
  ("CUP", ⟨.FIAT, "CUP", 2, "$MN", "$1", ".", ","⟩),
  ("CZK", ⟨.FIAT, "CZK", 2, "Kč", "1 $", ".", ","⟩),
  ("DKK", ⟨.FIAT, "DKK", 2, "kr", "1 $", ".", ","⟩),
  ("DOP", ⟨.FIAT, "DOP", 2, "RD$", "$1", ".", ","⟩),
  ("DZD", ⟨.FIAT, "DZD", 2, ".د.ج", "1 $", ".", ","⟩),
  ("EEK", ⟨.FIAT, "EEK", 2, "kr", "$1", ".", ","⟩),
  ("EGP", ⟨.FIAT, "EGP", 2, "£", "$1", ".", ","⟩),
  ("EUR", ⟨.FIAT, "EUR", 2, "€", "$1", ".", ","⟩)]

/-- Second quarter of the static currency table. -/
def currenciesB : List (String × Currency) := [
  ("FJD", ⟨.FIAT, "FJD", 2, "$", "$1", ".", ","⟩),
  ("FKP", ⟨.FIAT, "FKP", 2, "£", "$1", ".", ","⟩),
  ("GBP", ⟨.FIAT, "GBP", 2, "£", "$1", ".", ","⟩),
  ("GGP", ⟨.FIAT, "GGP", 2, "£", "$1", ".", ","⟩),
  ("GHC", ⟨.FIAT, "GHC", 2, "¢", "$1", ".", ","⟩),
  ("GIP", ⟨.FIAT, "GIP", 2, "£", "$1", ".", ","⟩),
  ("GTQ", ⟨.FIAT, "GTQ", 2, "Q", "$1", ".", ","⟩),
  ("GYD", ⟨.FIAT, "GYD", 2, "$", "$1", ".", ","⟩),
  ("HKD", ⟨.FIAT, "HKD", 2, "$", "$1", ".", ","⟩),
  ("HNL", ⟨.FIAT, "HNL", 2, "L", "$1", ".", ","⟩),
  ("HRK", ⟨.FIAT, "HRK", 2, "kn", "$1", ".", ","⟩),
  ("HUF", ⟨.FIAT, "HUF", 0, "Ft", "$1", ".", ","⟩),
  ("IDR", ⟨.FIAT, "IDR", 2, "Rp", "$1", ".", ","⟩),
  ("ILS", ⟨.FIAT, "ILS", 2, "₪", "$1", ".", ","⟩),
  ("IMP", ⟨.FIAT, "IMP", 2, "£", "$1", ".", ","⟩),
  ("INR", ⟨.FIAT, "INR", 2, "₹", "$1", ".", ","⟩),
  ("IQD", ⟨.FIAT, "IQD", 3, ".د.ع", "1 $", ".", ","⟩),
  ("IRR", ⟨.FIAT, "IRR", 2, "﷼", "1 $", ".", ","⟩),
  ("ISK", ⟨.FIAT, "ISK", 2, "kr", "$1", ".", ","⟩),
  ("JEP", ⟨.FIAT, "JEP", 2, "£", "$1", ".", ","⟩),
  ("JMD", ⟨.FIAT, "JMD", 2, "J$", "$1", ".", ","⟩),
  ("JOD", ⟨.FIAT, "JOD", 3, ".د.إ", "1 $", ".", ","⟩),
  ("JPY", ⟨.FIAT, "JPY", 0, "¥", "$1", ".", ","⟩),
  ("KES", ⟨.FIAT, "KES", 2, "KSh", "$1", ".", ","⟩),
  ("KGS", ⟨.FIAT, "KGS", 2, "сом", "$1", ".", ","⟩),
  ("KHR", ⟨.FIAT, "KHR", 2, "៛", "$1", ".", ","⟩),
  ("KPW", ⟨.FIAT, "KPW", 0, "₩", "$1", ".", ","⟩),
  ("KRW", ⟨.FIAT, "KRW", 0, "₩", "$1", ".", ","⟩),
  ("KWD", ⟨.FIAT, "KWD", 3, ".د.ك", "1 $", ".", ","⟩),
  ("KYD", ⟨.FIAT, "KYD", 2, "$", "$1", ".", ","⟩),
  ("KZT", ⟨.FIAT, "KZT", 2, "₸", "$1", ".", ","⟩),
  ("LAK", ⟨.FIAT, "LAK", 2, "₭", "$1", ".", ","⟩),
  ("LBP", ⟨.FIAT, "LBP", 2, "£", "$1", ".", ","⟩),
  ("LKR", ⟨.FIAT, "LKR", 2, "₨", "$1", ".", ","⟩),
  ("LRD", ⟨.FIAT, "LRD", 2, "$", "$1", ".", ","⟩),
  ("LTL", ⟨.FIAT, "LTL", 2, "Lt", "$1", ".", ","⟩),
  ("LVL", ⟨.FIAT, "LVL", 2, "Ls", "1 $", ".", ","⟩)]

/-- Third quarter of the static currency table. -/
def currenciesC : List (String × Currency) := [
  ("LYD", ⟨.FIAT, "LYD", 3, ".د.ل", "1 $", ".", ","⟩),
  ("MAD", ⟨.FIAT, "MAD", 2, ".د.م", "1 $", ".", ","⟩),
  ("MKD", ⟨.FIAT, "MKD", 2, "ден", "$1", ".", ","⟩),
  ("MNT", ⟨.FIAT, "MNT", 2, "₮", "$1", ".", ","⟩),
  ("MUR", ⟨.FIAT, "MUR", 2, "₨", "$1", ".", ","⟩),
  ("MXN", ⟨.FIAT, "MXN", 2, "$", "$1", ".", ","⟩),
  ("MWK", ⟨.FIAT, "MWK", 2, "MK", "$1", ".", ","⟩),
  ("MYR", ⟨.FIAT, "MYR", 2, "RM", "$1", ".", ","⟩),
  ("MZN", ⟨.FIAT, "MZN", 2, "MT", "$1", ".", ","⟩),
  ("NAD", ⟨.FIAT, "NAD", 2, "$", "$1", ".", ","⟩),
  ("NGN", ⟨.FIAT, "NGN", 2, "₦", "$1", ".", ","⟩),
  ("NIO", ⟨.FIAT, "NIO", 2, "C$", "$1", ".", ","⟩),
  ("NOK", ⟨.FIAT, "NOK", 2, "kr", "1 $", ".", ","⟩),
  ("NPR", ⟨.FIAT, "NPR", 2, "₨", "$1", ".", ","⟩),
  ("NZD", ⟨.FIAT, "NZD", 2, "$", "$1", ".", ","⟩),
  ("OMR", ⟨.FIAT, "OMR", 3, "﷼", "1 $", ".", ","⟩),
  ("PAB", ⟨.FIAT, "PAB", 2, "B/.", "$1", ".", ","⟩),
  ("PEN", ⟨.FIAT, "PEN", 2, "S/", "$1", ".", ","⟩),
  ("PHP", ⟨.FIAT, "PHP", 2, "₱", "$1", ".", ","⟩),
  ("PKR", ⟨.FIAT, "PKR", 2, "₨", "$1", ".", ","⟩),
  ("PLN", ⟨.FIAT, "PLN", 2, "zł", "1 $", ".", ","⟩),
  ("PYG", ⟨.FIAT, "PYG", 0, "Gs", "1$", ".", ","⟩),
  ("QAR", ⟨.FIAT, "QAR", 2, "﷼", "1 $", ".", ","⟩),
  ("RON", ⟨.FIAT, "RON", 2, "lei", "$1", ".", ","⟩),
  ("RSD", ⟨.FIAT, "RSD", 2, "Дин.", "$1", ".", ","⟩),
  ("RUB", ⟨.FIAT, "RUB", 2, "₽", "1 $", ".", ","⟩),
  ("RUR", ⟨.FIAT, "RUR", 2, "₽", "1 $", ".", ","⟩),
  ("SAR", ⟨.FIAT, "SAR", 2, "﷼", "1 $", ".", ","⟩),
  ("SBD", ⟨.FIAT, "SBD", 2, "$", "$1", ".", ","⟩)]

/-- Last quarter of the static currency table. -/
def currenciesD : List (String × Currency) := [
  ("SCR", ⟨.FIAT, "SCR", 2, "₨", "$1", ".", ","⟩),
  ("SEK", ⟨.FIAT, "SEK", 2, "kr", "1 $", ".", ","⟩),
  ("SGD", ⟨.FIAT, "SGD", 2, "$", "$1", ".", ","⟩),
  ("SHP", ⟨.FIAT, "SHP", 2, "£", "$1", ".", ","⟩),
  ("SOS", ⟨.FIAT, "SOS", 2, "S", "$1", ".", ","⟩),
  ("SRD", ⟨.FIAT, "SRD", 2, "$", "$1", ".", ","⟩),
  ("SVC", ⟨.FIAT, "SVC", 2, "$", "$1", ".", ","⟩),
  ("SYP", ⟨.FIAT, "SYP", 2, "£", "$1", ".", ","⟩),
  ("THB", ⟨.FIAT, "THB", 2, "฿", "$1", ".", ","⟩),
  ("TND", ⟨.FIAT, "TND", 3, ".د.ت", "1 $", ".", ","⟩),
  ("TRL", ⟨.FIAT, "TRL", 2, "₤", "$1", ".", ","⟩),
  ("TRY", ⟨.FIAT, "TRY", 2, "₺", "$1", ".", ","⟩),
  ("TTD", ⟨.FIAT, "TTD", 2, "TT$", "$1", ".", ","⟩),
  ("TWD", ⟨.FIAT, "TWD", 0, "NT$", "$1", ".", ","⟩),
  ("TZS", ⟨.FIAT, "TZS", 0, "TSh", "$1", ".", ","⟩),
  ("UAH", ⟨.FIAT, "UAH", 2, "₴", "$1", ".", ","⟩),
  ("UGX", ⟨.FIAT, "UGX", 0, "USh", "$1", ".", ","⟩),
  ("USD", ⟨.FIAT, "USD", 2, "$", "$1", ".", ","⟩),
  ("UYU", ⟨.FIAT, "UYU", 0, "$U", "$1", ".", ","⟩),
  ("UZS", ⟨.FIAT, "UZS", 2, "so’m", "$1", ".", ","⟩),
  ("VEF", ⟨.FIAT, "VEF", 2, "Bs", "$1", ".", ","⟩),
  ("VND", ⟨.FIAT, "VND", 0, "₫", "1 $", ".", ","⟩),
  ("XCD", ⟨.FIAT, "XCD", 2, "$", "$1", ".", ","⟩),
  ("YER", ⟨.FIAT, "YER", 2, "﷼", "1 $", ".", ","⟩),
  ("ZAR", ⟨.FIAT, "ZAR", 2, "R", "$1", ".", ","⟩),
  ("ZMW", ⟨.FIAT, "ZMW", 2, "ZK", "$1", ".", ","⟩),
  ("ZWD", ⟨.FIAT, "ZWD", 2, "Z$", "$1", ".", ","⟩),
  ("BTC", ⟨.CRYPTO, "BTC", 8, "₿", "$1", ".", ","⟩),
  ("XBT", ⟨.CRYPTO, "XBT", 8, "₿", "$1", ".", ","⟩),
  ("???", ⟨.UNKNOWN, "???", 2, "$", "$1", ".", ","⟩)]

/-- The full static currency table (`currencies` in currency.go), in the
source's order. -/
def currencies : List (String × Currency) :=
  currenciesA ++ currenciesB ++ currenciesC ++ currenciesD

/-- Registry lookup (`GetCurrency` in currency.go): returns the currency
record for a code, or nothing when the code is not registered. -/
def GetCurrency (code : String) : Option Currency :=
  List.lookup code currencies

/-- Placeholder currency for never-initialized Money values
(`getUnknownCurrency` in currency.go). -/
def getUnknownCurrency : Currency :=
  ⟨.FIAT, UnknownCurrencyCode, 2, "$", "1$", ".", ","⟩

/-- Modelled from the spec: the repository's `getBadCurrency` helper is not
among the provided sources; the spec says an unresolved code at construction
yields "a sentinel bad-currency marker".  Its exact fields are unspecified;
only that it is a fixed sentinel distinct from any registered code matters,
and no theorem below depends on the particular field values. -/
def getBadCurrency : Currency :=
  ⟨.UNKNOWN, "!!!", 2, "$", "1$", ".", ","⟩

/-- Modelled from the spec: the decimal engine's value type (an external
dependency of the repository).  A value is `value * 10 ^ exp`: an
arbitrary-precision signed integer coefficient with a base-10 scale. -/
structure Decimal where
  value : Int
  exp : Int
deriving DecidableEq, Repr

/-- Rational number represented by a Decimal (the spec's "represented
value = coefficient times 10 to the exponent"). -/
def Decimal.val (d : Decimal) : ℚ :=
  (d.value : ℚ) * (10 : ℚ) ^ d.exp

/-- Modelled from the spec: the decimal engine's zero constant. -/
def Decimal.Zero : Decimal := ⟨0, 0⟩

/-- Modelled from the spec: exact addition; exponents are aligned to the
smaller of the two operands and the result exponent is that minimum. -/
def Decimal.Add (d d2 : Decimal) : Decimal :=
  let e := min d.exp d2.exp
  ⟨d.value * 10 ^ (d.exp - e).toNat + d2.value * 10 ^ (d2.exp - e).toNat, e⟩

/-- Modelled from the spec: negation flips the coefficient sign. -/
def Decimal.Neg (d : Decimal) : Decimal :=
  ⟨-d.value, d.exp⟩

/-- Modelled from the spec: exact subtraction, as addition of the negation
with exponents aligned to the minimum. -/
def Decimal.Sub (d d2 : Decimal) : Decimal :=
  Decimal.Add d (Decimal.Neg d2)

/-- Modelled from the spec: absolute value of the coefficient. -/
def Decimal.Abs (d : Decimal) : Decimal :=
  ⟨(d.value.natAbs : Int), d.exp⟩

/-- Modelled from the spec: exact multiplication; coefficients multiply and
exponents add. -/
def Decimal.Mul (d d2 : Decimal) : Decimal :=
  ⟨d.value * d2.value, d.exp + d2.exp⟩

/-- Modelled from the spec: `Shift(n)` adds `n` to the exponent. -/
def Decimal.Shift (d : Decimal) (n : Int) : Decimal :=
  ⟨d.value, d.exp + n⟩

/-- Modelled from the spec: signum of the represented value. -/
def Decimal.Sign (d : Decimal) : Int :=
  d.value.sign

/-- Modelled from the spec: comparison of represented values after implicit
rescaling; yields -1, 0 or +1. -/
def Decimal.Cmp (d d2 : Decimal) : Int :=
  let e := min d.exp d2.exp
  let a := d.value * 10 ^ (d.exp - e).toNat
  let b := d2.value * 10 ^ (d2.exp - e).toNat
  if a < b then -1 else if a = b then 0 else 1

/-- Modelled from the spec: integer part, truncating toward zero. -/
def Decimal.IntPart (d : Decimal) : Int :=
  if 0 ≤ d.exp then d.value * 10 ^ d.exp.toNat
  else d.value.sign * ((d.value.natAbs / 10 ^ (-d.exp).toNat : Nat) : Int)

/-- Modelled from the spec: `Round(places)` rounds half away from zero to
`places` fractional digits; the result carries exponent `-places`. -/
def Decimal.Round (d : Decimal) (places : Int) : Decimal :=
  let t := -places
  if t ≤ d.exp then ⟨d.value * 10 ^ (d.exp - t).toNat, t⟩
  else
    let p := 10 ^ (t - d.exp).toNat
    ⟨d.value.sign * (((d.value.natAbs + p / 2) / p : Nat) : Int), t⟩

/-- Modelled from the spec: `RoundBank(places)` rounds half to even
(banker's rounding) to `places` fractional digits: when the discarded
portion is exactly half, round to the neighbor whose last retained digit is
even. -/
def Decimal.RoundBank (d : Decimal) (places : Int) : Decimal :=
  let t := -places
  if t ≤ d.exp then ⟨d.value * 10 ^ (d.exp - t).toNat, t⟩
  else
    let p := 10 ^ (t - d.exp).toNat
    let q0 := d.value.natAbs / p
    let r := d.value.natAbs % p
    let q : Nat :=
      if r < p / 2 then q0
      else if r = p / 2 then (if q0 % 2 = 0 then q0 else q0 + 1)
      else q0 + 1
    ⟨d.value.sign * (q : Int), t⟩

/-- Modelled from the spec: `DivRound` performs exact rational division and
rounds the quotient half away from zero to `precision` fractional digits;
division by a zero-valued operand is fatal (`none`). -/
def Decimal.DivRound (d d2 : Decimal) (precision : Int) : Option Decimal :=
  if d2.value = 0 then none
  else
    let k := d.exp + precision - d2.exp
    let a := if 0 ≤ k then d.value * 10 ^ k.toNat else d.value
    let b := if 0 ≤ k then d2.value else d2.value * 10 ^ (-k).toNat
    some ⟨a.sign * b.sign * (((2 * a.natAbs + b.natAbs) / (2 * b.natAbs) : Nat) : Int),
      -precision⟩

/-- Process-wide division precision default; the repository overrides the
engine's default to 20 (`DivisionPrecision` in money.go). -/
def DivisionPrecision : Int := 20

/-- Modelled from the spec: `Div` is `DivRound` at the process-wide
`DivisionPrecision`. -/
def Decimal.Div (d d2 : Decimal) : Option Decimal :=
  Decimal.DivRound d d2 DivisionPrecision

/-- Modelled from the spec: `QuoRem(other, precision)` produces a quotient
that is an integer multiple of `10 ^ -precision` and a remainder `r` with
`d = d2 * q + r`, `0 ≤ r < abs d2 * 10 ^ -precision` when `d ≥ 0` and the
mirrored relation when `d < 0` (truncation-style division); a zero divisor
is fatal (`none`). -/
def Decimal.QuoRem (d d2 : Decimal) (precision : Int) : Option (Decimal × Decimal) :=
  if d2.value = 0 then none
  else
    let e := d.exp - d2.exp + precision
    if e < 0 then
      let bb := d2.value * 10 ^ (-e).toNat
      some (⟨Int.tdiv d.value bb, -precision⟩, ⟨Int.tmod d.value bb, d.exp⟩)
    else
      let aa := d.value * 10 ^ e.toNat
      some (⟨Int.tdiv aa d2.value, -precision⟩,
        ⟨Int.tmod aa d2.value, -precision + d2.exp⟩)

/-- Modelled from the spec: `Mod` is the remainder component of
`QuoRem(other, 0)`. -/
def Decimal.Mod (d d2 : Decimal) : Option Decimal :=
  (Decimal.QuoRem d d2 0).map (·.2)

/-- Modelled from the spec: `Pow` uses repeated-multiplication semantics on
the integer part of the exponent operand; a negative exponent divides one by
the positive power at the division precision. -/
def Decimal.Pow (d d2 : Decimal) : Option Decimal :=
  let n := Decimal.IntPart d2
  if 0 ≤ n then some ⟨d.value ^ n.toNat, d.exp * n⟩
  else Decimal.DivRound ⟨1, 0⟩ ⟨d.value ^ (-n).toNat, d.exp * (-n)⟩ DivisionPrecision

/-- Modelled from the spec: `Floor` is the nearest integer value less than
or equal to the represented value. -/
def Decimal.Floor (d : Decimal) : Decimal :=
  if 0 ≤ d.exp then ⟨d.value * 10 ^ d.exp.toNat, 0⟩
  else ⟨Int.fdiv d.value (10 ^ (-d.exp).toNat), 0⟩

/-- Modelled from the spec: `Ceil` is the nearest integer value greater than
or equal to the represented value. -/
def Decimal.Ceil (d : Decimal) : Decimal :=
  if 0 ≤ d.exp then ⟨d.value * 10 ^ d.exp.toNat, 0⟩
  else ⟨-Int.fdiv (-d.value) (10 ^ (-d.exp).toNat), 0⟩

/-- Modelled from the spec: `Truncate(precision)` cuts off fractional digits
beyond `precision` without rounding, leaving the value unchanged when it
already has no more than `precision` fractional digits. -/
def Decimal.Truncate (d : Decimal) (precision : Int) : Decimal :=
  if 0 ≤ precision ∧ d.exp < -precision then
    let p := 10 ^ (-precision - d.exp).toNat
    ⟨d.value.sign * ((d.value.natAbs / p : Nat) : Int), -precision⟩
  else d

/-- Modelled from the spec: `RoundCash(interval)` rounds the value to the
nearest multiple of `interval` one-hundredths of the minor unit (ties away
from zero, matching the engine's half-away `Round(0)` step); only the
intervals 5, 10, 15, 25, 50 and 100 are valid and any other interval is a
fatal error (`none`). -/
def Decimal.RoundCash (d : Decimal) (interval : Nat) : Option Decimal :=
  if interval = 5 ∨ interval = 10 ∨ interval = 15 ∨ interval = 25 ∨
      interval = 50 ∨ interval = 100 then
    let k := d.exp + 2
    let a := if 0 ≤ k then d.value * 10 ^ k.toNat else d.value
    let b := interval * 10 ^ (if 0 ≤ k then 0 else (-k).toNat)
    some ⟨(a.sign * (((2 * a.natAbs + b) / (2 * b) : Nat) : Int)) * interval, -2⟩
  else none

/-- Fuel-driven little-endian base-`b` digit expansion; structural so that
the kernel can evaluate it (see `natDigitsLE`). -/
def natDigitsAux (b : Nat) : Nat → Nat → List Nat
  | 0, _ => []
  | fuel + 1, n => if n = 0 then [] else n % b :: natDigitsAux b fuel (n / b)

/-- Little-endian base-`b` digits of a natural number, with no leading
zeros and the empty list for 0 (a kernel-computable version of
`Nat.digits`). -/
def natDigitsLE (b n : Nat) : List Nat := natDigitsAux b n n

/-- Test for a decimal digit character. -/
def isDigitCh (c : Char) : Bool := 48 ≤ c.toNat ∧ c.toNat ≤ 57

/-- Character for a single decimal digit. -/
def digitChar (d : Nat) : Char := Char.ofNat (48 + d)

/-- Digit denoted by a character. -/
def charDigit (c : Char) : Nat := c.toNat - 48

/-- Big-endian decimal digit characters of a natural number (empty for 0). -/
def natDigitsChars (n : Nat) : List Char :=
  ((natDigitsLE 10 n).reverse).map digitChar

/-- Decimal string of a natural number ("0" for 0). -/
def natStrChars (n : Nat) : List Char :=
  if n = 0 then ['0'] else natDigitsChars n

/-- Natural number denoted by a big-endian string of digit characters. -/
def charsToNat (l : List Char) : Nat :=
  Nat.ofDigits 10 ((l.map charDigit).reverse)

/-- Split a character list at its first '.' (if any), mirroring how the
source splits a decimal string into integer and fractional parts. -/
def splitDot : List Char → List Char × Option (List Char)
  | [] => ([], none)
  | c :: rest =>
    if c = '.' then ([], some rest)
    else
      let p := splitDot rest
      (c :: p.1, p.2)

/-- Modelled from the spec: parser for an unsigned plain decimal string
(digits with at most one decimal point); the coefficient is the digits with
the point removed and the exponent is minus the number of fractional
digits. -/
def parseUnsignedDec (s : List Char) : Option (Int × Int) :=
  let p := splitDot s
  match p.2 with
  | none =>
    if p.1 ≠ [] ∧ p.1.all isDigitCh then some (((charsToNat p.1 : Nat) : Int), 0)
    else none
  | some fp =>
    if (p.1 ++ fp) ≠ [] ∧ (p.1 ++ fp).all isDigitCh then
      some (((charsToNat (p.1 ++ fp) : Nat) : Int), -(fp.length : Int))
    else none

/-- Modelled from the spec: parser for a plain decimal string with an
optional leading sign; yields the (coefficient, exponent) pair or fails on
malformed input. -/
def parseDecChars : List Char → Option (Int × Int)
  | [] => none
  | c :: rest =>
    if c = '-' then (parseUnsignedDec rest).map (fun p => (-p.1, p.2))
    else if c = '+' then parseUnsignedDec rest
    else parseUnsignedDec (c :: rest)

/-- Modelled from the spec: unsigned body of the plain decimal string — the
digits of `a` with `n` fractional digits, fractional trailing zeros trimmed
and the decimal point omitted when no fractional digit remains. -/
def decUnsignedChars (a n : Nat) : List Char :=
  let fracLE := natDigitsLE 10 (a % 10 ^ n) ++
    List.replicate (n - (natDigitsLE 10 (a % 10 ^ n)).length) 0
  let trimmed := fracLE.dropWhile (· = 0)
  natStrChars (a / 10 ^ n) ++
    (if trimmed = [] then [] else '.' :: (trimmed.reverse.map digitChar))

/-- Modelled from the spec: the plain decimal string of a value (no symbol,
no grouping); a non-negative exponent renders the integer the value stands
for, a negative exponent renders that many fractional digits with trailing
zeros trimmed. -/
def decStrChars (d : Decimal) : List Char :=
  if 0 ≤ d.exp then
    (if d.value < 0 then ['-'] else []) ++
      decUnsignedChars (d.value.natAbs * 10 ^ d.exp.toNat) 0
  else
    (if d.value < 0 then ['-'] else []) ++
      decUnsignedChars d.value.natAbs (-d.exp).toNat

/-- Plain decimal string of a Decimal (the engine's `String`). -/
def Decimal.decString (d : Decimal) : String := ⟨decStrChars d⟩

/-- Modelled from the spec: fixed-point rendering of a Decimal whose
exponent is the scale — when the exponent is negative, exactly that many
fractional digits are printed (no trimming). -/
def decFixedChars (d : Decimal) : List Char :=
  if 0 ≤ d.exp then
    (if d.value < 0 then ['-'] else []) ++ natStrChars (d.value.natAbs * 10 ^ d.exp.toNat)
  else
    let n := (-d.exp).toNat
    let a := d.value.natAbs
    let fracLE := natDigitsLE 10 (a % 10 ^ n) ++
      List.replicate (n - (natDigitsLE 10 (a % 10 ^ n)).length) 0
    (if d.value < 0 then ['-'] else []) ++ natStrChars (a / 10 ^ n) ++
      '.' :: (fracLE.reverse.map digitChar)

/-- Modelled from the spec: banker-rounded fixed-point string with `places`
digits after the decimal point (`StringFixedBank`). -/
def Decimal.StringFixedBank (d : Decimal) (places : Int) : String :=
  ⟨decFixedChars (Decimal.RoundBank d places)⟩



/-- Core monetary value (`Money` in money.go): a decimal amount paired with
a currency reference.  The Go field is a possibly-nil pointer, embedded as
an `Option`; `none` is the never-initialized (zero-value) state. -/
structure Money where
  amount : Decimal
  currency : Option Currency
deriving DecidableEq, Repr

/-- Coerce a never-initialized Money to the unknown-currency placeholder
(`ensureInitialized` in money.go). -/
def Money.ensureInitialized (m : Money) : Money :=
  match m.currency with
  | none => { m with currency := some getUnknownCurrency }
  | some _ => m

/-- Currency code a Money resolves to when first used: its own code, or the
unknown sentinel code when it was never initialized. -/
def Money.resolvedCode (m : Money) : String :=
  match m.currency with
  | none => UnknownCurrencyCode
  | some c => c.code

/-- Constructor from integer and exponent (`New` in money.go).  Go returns
a result together with an error; the Bool is true exactly when no error was
reported, and the error case carries the zero/bad-currency sentinel. -/
def New (curr : String) (value : Int) (exp : Int) : Money × Bool :=
  match GetCurrency curr with
  | none => (⟨Decimal.Zero, some getBadCurrency⟩, false)
  | some c => (⟨⟨value, exp⟩, some c⟩, true)

/-- Constructor from a big integer and exponent (`NewFromBigInt` in
money.go). -/
def NewFromBigInt (curr : String) (value : Int) (exp : Int) : Money × Bool :=
  match GetCurrency curr with
  | none => (⟨Decimal.Zero, some getBadCurrency⟩, false)
  | some c => (⟨⟨value, exp⟩, some c⟩, true)

/-- Constructor from a decimal string (`NewFromString` in money.go); a bad
currency code or a malformed number reports an error (Bool false) with the
zero/bad-currency sentinel result. -/
def NewFromString (curr : String) (value : String) : Money × Bool :=
  match GetCurrency curr with
  | none => (⟨Decimal.Zero, some getBadCurrency⟩, false)
  | some c =>
    match parseDecChars value.data with
    | none => (⟨Decimal.Zero, some getBadCurrency⟩, false)
    | some p => (⟨⟨p.1, p.2⟩, some c⟩, true)

/-- One-time currency finalization (`UpdateCurrency` in money.go): allowed
only while the code is still the unknown sentinel; otherwise, or for an
unregistered new code, an error is reported (Bool false) and the Money is
unchanged.  Go reads `m.currency.Code` without initializing first, so a
nil currency is a panic (`none`). -/
def Money.UpdateCurrency (m : Money) (newCurr : String) : Option (Money × Bool) :=
  match m.currency with
  | none => none
  | some c =>
    if c.code ≠ UnknownCurrencyCode then some (m, false)
    else
      match GetCurrency newCurr with
      | none => some (m, false)
      | some c2 => some ({ m with currency := some c2 }, true)

/-- Absolute value (`Abs` in money.go). -/
def Money.Abs (m1 : Money) : Money :=
  let m := m1.ensureInitialized
  ⟨Decimal.Abs m.amount, m.currency⟩

/-- Negation (`Neg` in money.go). -/
def Money.Neg (m1 : Money) : Money :=
  let m := m1.ensureInitialized
  ⟨Decimal.Neg m.amount, m.currency⟩

/-- Base-10 shift (`Shift` in money.go). -/
def Money.Shift (m1 : Money) (shift : Int) : Money :=
  let m := m1.ensureInitialized
  ⟨Decimal.Shift m.amount shift, m.currency⟩

/-- Addition (`Add` in money.go): panics (`none`) when the resolved
currencies differ. -/
def Money.Add (m1 m2 : Money) : Option Money :=
  let m := m1.ensureInitialized
  let n := m2.ensureInitialized
  match m.currency, n.currency with
  | some c, some c2 =>
    if c.code = c2.code then some ⟨Decimal.Add m.amount n.amount, some c⟩ else none
  | _, _ => none

/-- Subtraction (`Sub` in money.go): panics (`none`) when the resolved
currencies differ. -/
def Money.Sub (m1 m2 : Money) : Option Money :=
  let m := m1.ensureInitialized
  let n := m2.ensureInitialized
  match m.currency, n.currency with
  | some c, some c2 =>
    if c.code = c2.code then some ⟨Decimal.Sub m.amount n.amount, some c⟩ else none
  | _, _ => none

/-- Multiplication (`Mul` in money.go): panics (`none`) when the resolved
currencies differ. -/
def Money.Mul (m1 m2 : Money) : Option Money :=
  let m := m1.ensureInitialized
  let n := m2.ensureInitialized
  match m.currency, n.currency with
  | some c, some c2 =>
    if c.code = c2.code then some ⟨Decimal.Mul m.amount n.amount, some c⟩ else none
  | _, _ => none

/-- Division with rounding (`DivRound` in money.go): panics (`none`) when
the resolved currencies differ, or on a zero divisor. -/
def Money.DivRound (m1 m2 : Money) (precision : Int) : Option Money :=
  let m := m1.ensureInitialized
  let n := m2.ensureInitialized
  match m.currency, n.currency with
  | some c, some c2 =>
    if c.code = c2.code then
      (Decimal.DivRound m.amount n.amount precision).map (fun a => ⟨a, some c⟩)
    else none
  | _, _ => none

/-- Division at the process-wide precision (`Div` in money.go). -/
def Money.Div (m1 m2 : Money) : Option Money :=
  Money.DivRound m1 m2 DivisionPrecision

/-- Division with remainder (`QuoRem` in money.go): the quotient carries the
first operand's currency and the remainder the second operand's. -/
def Money.QuoRem (m1 m2 : Money) (precision : Int) : Option (Money × Money) :=
  let m := m1.ensureInitialized
  let n := m2.ensureInitialized
  match m.currency, n.currency with
  | some c, some c2 =>
    if c.code = c2.code then
      (Decimal.QuoRem m.amount n.amount precision).map
        (fun p => (⟨p.1, some c⟩, ⟨p.2, some c2⟩))
    else none
  | _, _ => none

/-- Remainder (`Mod` in money.go). -/
def Money.Mod (m1 m2 : Money) : Option Money :=
  let m := m1.ensureInitialized
  let n := m2.ensureInitialized
  match m.currency, n.currency with
  | some c, some c2 =>
    if c.code = c2.code then
      (Decimal.Mod m.amount n.amount).map (fun a => ⟨a, some c⟩)
    else none
  | _, _ => none

/-- Power (`Pow` in money.go). -/
def Money.Pow (m1 m2 : Money) : Option Money :=
  let m := m1.ensureInitialized
  let n := m2.ensureInitialized
  match m.currency, n.currency with
  | some c, some c2 =>
    if c.code = c2.code then
      (Decimal.Pow m.amount n.amount).map (fun a => ⟨a, some c⟩)
    else none
  | _, _ => none

/-- Comparison (`Cmp` in money.go): panics (`none`) when the resolved
currencies differ, else -1, 0 or +1. -/
def Money.Cmp (m1 m2 : Money) : Option Int :=
  let m := m1.ensureInitialized
  let n := m2.ensureInitialized
  match m.currency, n.currency with
  | some c, some c2 =>
    if c.code = c2.code then some (Decimal.Cmp m.amount n.amount) else none
  | _, _ => none

/-- Half-away-from-zero rounding (`Round` in money.go). -/
def Money.Round (m1 : Money) (places : Int) : Money :=
  let m := m1.ensureInitialized
  ⟨Decimal.Round m.amount places, m.currency⟩

/-- Banker's rounding (`RoundBank` in money.go). -/
def Money.RoundBank (m1 : Money) (places : Int) : Money :=
  let m := m1.ensureInitialized
  ⟨Decimal.RoundBank m.amount places, m.currency⟩

/-- Cash rounding (`RoundCash` in money.go): an invalid interval is a panic
(`none`). -/
def Money.RoundCash (m1 : Money) (interval : Nat) : Option Money :=
  let m := m1.ensureInitialized
  (Decimal.RoundCash m.amount interval).map (fun a => ⟨a, m.currency⟩)

/-- Floor (`Floor` in money.go). -/
def Money.Floor (m1 : Money) : Money :=
  let m := m1.ensureInitialized
  ⟨Decimal.Floor m.amount, m.currency⟩

/-- Ceiling (`Ceil` in money.go). -/
def Money.Ceil (m1 : Money) : Money :=
  let m := m1.ensureInitialized
  ⟨Decimal.Ceil m.amount, m.currency⟩

/-- Truncation (`Truncate` in money.go). -/
def Money.Truncate (m1 : Money) (precision : Int) : Money :=
  let m := m1.ensureInitialized
  ⟨Decimal.Truncate m.amount precision, m.currency⟩

/-- Plain decimal string of the amount (the method named `String` in
money.go; renamed here because it would shadow Lean's string type). -/
def Money.amountString (m1 : Money) : String :=
  Decimal.decString (m1.ensureInitialized).amount

/-- Text serialization (`MarshalText` in money.go): the plain decimal
string. -/
def Money.MarshalText (m : Money) : String :=
  Money.amountString m

/-- Text deserialization (`UnmarshalText` in money.go): parse the string as
a Money with the unknown-currency sentinel code; the receiver is assigned
the parse result in all cases and the Bool is true exactly when no error is
reported. -/
def Money.UnmarshalText (text : String) : Money × Bool :=
  NewFromString UnknownCurrencyCode text

/-- Aggregate sum (`Sum` in money.go), folding `Add` over the rest: a
currency mismatch anywhere panics (`none`). -/
def Money.Sum (first : Money) (rest : List Money) : Option Money :=
  rest.foldlM Money.Add first

/-- Aggregate minimum (`Min` in money.go), folding `Cmp` over the rest. -/
def Money.Min (first : Money) (rest : List Money) : Option Money :=
  rest.foldlM (fun ans item =>
    (Money.Cmp item ans).map (fun c => if c < 0 then item else ans)) first

/-- Aggregate maximum (`Max` in money.go), folding `Cmp` over the rest. -/
def Money.Max (first : Money) (rest : List Money) : Option Money :=
  rest.foldlM (fun ans item =>
    (Money.Cmp item ans).map (fun c => if 0 < c then item else ans)) first

/-- Aggregate average (`Avg` in money.go): builds the count as a Money of
the first element's currency at exponent 0 (ignoring the constructor's
error), sums, and divides.  Go reads `first.currency.Code` without
initializing first, so a nil currency is a panic (`none`). -/
def Money.Avg (first : Money) (rest : List Money) : Option Money :=
  match first.currency with
  | none => none
  | some c =>
    let count := (New c.code ((rest.length : Int) + 1) 0).1
    match Money.Sum first rest with
    | none => none
    | some s => Money.Div s count
/-- Modelled from the spec: the exponent's 4-byte big-endian encoding (Go's
`binary.BigEndian.PutUint32`, not under the provided sources), as a list of
byte values. -/
def putUInt32BE (u : Nat) : List Nat :=
  [u / 2 ^ 24 % 256, u / 2 ^ 16 % 256, u / 2 ^ 8 % 256, u % 256]

/-- Modelled from the spec: big-endian value of a byte list (Go's
`binary.BigEndian.Uint32` when the list has four bytes, and the magnitude
part of the big-int blob decoding; neither is under the provided sources). -/
def beBytesVal (l : List Nat) : Nat :=
  l.foldl (fun acc b => acc * 256 + b) 0

/-- Modelled from the spec: unsigned 32-bit image of a (signed 32-bit)
exponent, Go's `uint32(int32)` conversion. -/
def toUInt32 (e : Int) : Nat := (e % (2 ^ 32 : Int)).toNat

/-- Modelled from the spec: signed 32-bit value of an unsigned 32-bit
image, Go's `int32(uint32)` conversion. -/
def toInt32 (u : Nat) : Int :=
  if u < 2 ^ 31 then (u : Int) else (u : Int) - 2 ^ 32

/-- Little-endian base-256 bytes of a natural number (no leading zeros,
empty for 0). -/
def natBytesLE (n : Nat) : List Nat := natDigitsLE 256 n

/-- Modelled from the spec: the coefficient's self-describing
arbitrary-precision integer blob (Go big.Int gob encoding): one leading
byte holding a format version tag and the sign, followed by the magnitude
bytes big-endian with no leading zeros. -/
def gobEncode (x : Int) : List Nat :=
  (2 + (if x < 0 then 1 else 0)) :: (natBytesLE x.natAbs).reverse

/-- Modelled from the spec: decoding of the big-int blob; an empty blob is
zero, and a leading byte with the wrong version tag is an error. -/
def gobDecode (l : List Nat) : Except String Int :=
  match l with
  | [] => .ok 0
  | b :: rest =>
    if b / 2 = 1 then
      .ok (if b % 2 = 1 then -(beBytesVal rest : Int) else (beBytesVal rest : Int))
    else .error "Int.GobDecode: encoding version mismatch"

/-- Byte values of a string (Go's `[]byte(s)`); faithful for ASCII strings,
which is all the binary codec supports (the source warns it breaks on
non-ASCII currency codes). -/
def strBytes (s : String) : List Nat := s.data.map Char.toNat

/-- String of a list of byte values (Go's `string(b)`); faithful for ASCII
bytes. -/
def bytesStr (l : List Nat) : String := ⟨l.map Char.ofNat⟩

/-- Binary serialization (`MarshalBinary` in money.go): 3 code bytes, then
the exponent as 4 big-endian bytes, then the coefficient blob.  Go reads
`m.currency.Code` before any initialization, so a nil currency is a panic
(`none`). -/
def Money.MarshalBinary (m : Money) : Option (List Nat) :=
  match m.currency with
  | none => none
  | some c =>
    some (strBytes c.code ++ putUInt32BE (toUInt32 m.amount.exp) ++
      gobEncode m.amount.value)

/-- Binary deserialization (`UnmarshalBinary` in money.go): fewer than 8
bytes is an error; otherwise the first 3 bytes are the currency code, the
next 4 the big-endian exponent, and the rest the coefficient blob.  The
error from `NewFromBigInt` is discarded. -/
def Money.UnmarshalBinary (data : List Nat) : Except String Money :=
  if data.length < 8 then .error "Not enough data"
  else
    let curr := bytesStr (data.take 3)
    let exp := toInt32 (beBytesVal ((data.drop 3).take 4))
    match gobDecode (data.drop 7) with
    | .error e => .error e
    | .ok v => .ok (NewFromBigInt curr v exp).1

/-- Money formatting descriptor (`Formatter` in formatter.go). -/
structure Formatter where
  fraction : Int
  decPoint : String
  thousand : String
  grapheme : String
  template : String
deriving DecidableEq, Repr

/-- Formatter of a currency's display fields (`Formatter` method in
currency.go). -/
def Currency.Formatter (c : Currency) : Formatter :=
  ⟨c.fraction, c.decPoint, c.thousand, c.grapheme, c.template⟩

/-- Replace the first occurrence of `old` in `s` by `new` (Go's
`strings.Replace(s, old, new, 1)`). -/
def replaceFirst (s old new : List Char) : List Char :=
  match s with
  | [] => []
  | c :: rest =>
    if List.isPrefixOf old (c :: rest) then new ++ (c :: rest).drop old.length
    else c :: replaceFirst rest old new

/-- Strip leading and trailing whitespace (Go's `strings.TrimSpace`). -/
def trimSpace (s : List Char) : List Char :=
  ((s.dropWhile Char.isWhitespace).reverse.dropWhile Char.isWhitespace).reverse

/-- Fuel-driven loop body of the thousand-separator insertion; structural
so that the kernel can evaluate it (see `insertThousandSeps`). -/
def insertSepsAux (sep : List Char) : Nat → List Char → Nat → List Char
  | 0, s, _ => s
  | fuel + 1, s, i =>
    if 0 < i then insertSepsAux sep fuel (s.take i ++ sep ++ s.drop i) (i - 3) else s

/-- Insert the thousand separator at byte position `i`, then every 3
positions down while the position is positive, mirroring formatter.go's
descending insertion loop (the fuel `i` dominates the iteration count). -/
def insertThousandSeps (sep : List Char) (s : List Char) (i : Nat) : List Char :=
  insertSepsAux sep i s i

/-- Template-driven rendering (`formatWithOptions` in formatter.go): render
the absolute amount bank-rounded to the descriptor's fraction digits, group
thousands unless suppressed, substitute into the template, show or strip the
currency grapheme, and mark negatives with a minus sign or brackets. -/
def Formatter.formatWithOptions (f : Formatter) (amount : Decimal)
    (noThousands noCurrencyGrapheme negsInBrackets : Bool) : String :=
  let numStr := Decimal.StringFixedBank (Decimal.Abs amount) f.fraction
  let p := splitDot numStr.data
  let fractionalPart := match p.2 with | some fp => fp | none => []
  let intPart0 := p.1
  let intPart1 :=
    if noThousands = false then
      if f.thousand ≠ "" then
        insertThousandSeps f.thousand.data intPart0 (intPart0.length - 3)
      else intPart0
    else intPart0
  let combined :=
    if 0 < fractionalPart.length then intPart1 ++ f.decPoint.data ++ fractionalPart
    else intPart1
  let templated := replaceFirst f.template.data ['1'] combined
  let symboled :=
    if noCurrencyGrapheme then trimSpace (replaceFirst templated ['$'] [])
    else replaceFirst templated ['$'] f.grapheme.data
  let signed :=
    if Decimal.Sign amount < 0 then
      if negsInBrackets then '(' :: (symboled ++ [')']) else '-' :: symboled
    else symboled
  ⟨signed⟩

/-- Accounting style (`FormatAccounting` in formatter.go): no grouping, no
grapheme, bracketed negatives. -/
def Formatter.FormatAccounting (f : Formatter) (amount : Decimal) : String :=
  f.formatWithOptions amount true true true

/-- Plain currency style (`FormatCurrency` in formatter.go): grouping,
grapheme, minus-sign negatives. -/
def Formatter.FormatCurrency (f : Formatter) (amount : Decimal) : String :=
  f.formatWithOptions amount false false false
theorem natDigitsAux_eq_digits {b : Nat} (hb : 2 ≤ b) :
    ∀ fuel n, n ≤ fuel → natDigitsAux b fuel n = Nat.digits b n := by
  intro fuel
  induction fuel with
  | zero =>
    intro n hn
    have h0 : n = 0 := by omega
    subst h0
    simp [natDigitsAux]
  | succ k ih =>
    intro n hn
    by_cases h0 : n = 0
    · subst h0; simp [natDigitsAux]
    · have hdiv : n / b ≤ k := by
        have := Nat.div_lt_self (Nat.pos_of_ne_zero h0) (by omega : 1 < b)
        omega
      rw [natDigitsAux, if_neg h0, ih _ hdiv,
        ← Nat.digits_def' (by omega : 1 < b) (Nat.pos_of_ne_zero h0)]

theorem natDigitsLE_eq_digits {b : Nat} (hb : 2 ≤ b) (n : Nat) :
    natDigitsLE b n = Nat.digits b n :=
  natDigitsAux_eq_digits hb n n le_rfl

theorem charDigit_digitChar {d : Nat} (h : d < 10) : charDigit (digitChar d) = d := by
  interval_cases d <;> decide

theorem isDigitCh_digitChar {d : Nat} (h : d < 10) : isDigitCh (digitChar d) = true := by
  interval_cases d <;> decide

theorem isDigitCh_ne_dot {c : Char} (h : isDigitCh c = true) : c ≠ '.' := by
  intro hc; subst hc; exact absurd h (by decide)

theorem isDigitCh_ne_minus {c : Char} (h : isDigitCh c = true) : c ≠ '-' := by
  intro hc; subst hc; exact absurd h (by decide)

theorem isDigitCh_ne_plus {c : Char} (h : isDigitCh c = true) : c ≠ '+' := by
  intro hc; subst hc; exact absurd h (by decide)

theorem charsToNat_natDigitsChars (n : Nat) : charsToNat (natDigitsChars n) = n := by
  unfold charsToNat natDigitsChars
  rw [natDigitsLE_eq_digits (by norm_num)]
  rw [List.map_map]
  have hmap : (Nat.digits 10 n).reverse.map (charDigit ∘ digitChar) =
      (Nat.digits 10 n).reverse.map id := by
    apply List.map_congr_left
    intro d hd
    have hd10 : d < 10 :=
      Nat.digits_lt_base (by norm_num) (List.mem_reverse.mp hd)
    simp [charDigit_digitChar hd10]
  rw [hmap, List.map_id, List.reverse_reverse, Nat.ofDigits_digits]

theorem charsToNat_natStrChars (n : Nat) : charsToNat (natStrChars n) = n := by
  unfold natStrChars
  split
  · simp_all [charsToNat, charDigit, Nat.ofDigits]
  · exact charsToNat_natDigitsChars n

theorem natStrChars_ne_nil (n : Nat) : natStrChars n ≠ [] := by
  unfold natStrChars
  split
  · simp
  · unfold natDigitsChars
    rw [natDigitsLE_eq_digits (by norm_num)]
    simp [Nat.digits_ne_nil_iff_ne_zero, *]

theorem natStrChars_all_digits (n : Nat) : (natStrChars n).all isDigitCh = true := by
  unfold natStrChars
  split
  · decide
  · unfold natDigitsChars
    rw [natDigitsLE_eq_digits (by norm_num)]
    rw [List.all_eq_true]
    intro c hc
    obtain ⟨d, hd, rfl⟩ := List.mem_map.mp hc
    exact isDigitCh_digitChar (Nat.digits_lt_base (by norm_num) (List.mem_reverse.mp hd))

theorem charsToNat_append (a b : List Char) :
    charsToNat (a ++ b) = charsToNat b + 10 ^ b.length * charsToNat a := by
  unfold charsToNat
  rw [List.map_append, List.reverse_append, Nat.ofDigits_append]
  simp

theorem splitDot_no_dot {l : List Char} (h : '.' ∉ l) : splitDot l = (l, none) := by
  induction l with
  | nil => rfl
  | cons c rest ih =>
    have hc : ¬(c = '.') := by
      intro e; exact h (e ▸ List.mem_cons_self c rest)
    have hr : '.' ∉ rest := fun m => h (List.mem_cons_of_mem _ m)
    simp [splitDot, hc, ih hr]

theorem splitDot_append_dot {l1 : List Char} (l2 : List Char) (h : '.' ∉ l1) :
    splitDot (l1 ++ '.' :: l2) = (l1, some l2) := by
  induction l1 with
  | nil => simp [splitDot]
  | cons c rest ih =>
    have hc : ¬(c = '.') := by
      intro e; exact h (e ▸ List.mem_cons_self c rest)
    have hr : '.' ∉ rest := fun m => h (List.mem_cons_of_mem _ m)
    simp [splitDot, hc, ih hr]

theorem all_digits_no_dot {l : List Char} (h : l.all isDigitCh = true) : '.' ∉ l := by
  intro hm
  exact absurd (List.all_eq_true.mp h _ hm) (by decide)

theorem ofDigits_all_zero {b : Nat} {l : List Nat} (h : ∀ x ∈ l, x = 0) :
    Nat.ofDigits b l = 0 := by
  induction l with
  | nil => rfl
  | cons x rest ih =>
    have hx : x = 0 := h x (List.mem_cons_self x rest)
    have hr : ∀ y ∈ rest, y = 0 := fun y hy => h y (List.mem_cons_of_mem _ hy)
    simp [Nat.ofDigits_cons, hx, ih hr]

theorem digits_len_le_of_lt_pow {r n : Nat} (h : r < 10 ^ n) :
    (Nat.digits 10 r).length ≤ n := by
  by_cases hr : r = 0
  · subst hr; simp
  · by_contra hlen
    push_neg at hlen
    have h1 := Nat.base_pow_length_digits_le 10 r (by norm_num) hr
    have h2 : (10 : ℕ) ^ (n + 1) ≤ 10 ^ (Nat.digits 10 r).length :=
      Nat.pow_le_pow_right (by norm_num) hlen
    have h3 : (10 : ℕ) ^ (n + 1) ≤ 10 * r := le_trans h2 h1
    rw [pow_succ] at h3
    have h4 : (10 : ℕ) ^ n ≤ r := by omega
    omega
theorem mem_takeWhile_pred (p : Nat → Bool) :
    ∀ (l : List Nat), ∀ y ∈ l.takeWhile p, p y = true := by
  intro l
  induction l with
  | nil => intro y hy; simp [List.takeWhile] at hy
  | cons x rest ih =>
    intro y hy
    rw [List.takeWhile_cons] at hy
    by_cases hp : p x = true
    · rw [if_pos hp] at hy
      rcases List.mem_cons.mp hy with rfl | h
      · exact hp
      · exact ih y h
    · rw [if_neg hp] at hy
      exact absurd hy (List.not_mem_nil y)

theorem parseUnsigned_print (q r n : Nat) (hr : r < 10 ^ n) :
    ∃ v k : Nat,
      parseUnsignedDec (natStrChars q ++
        (if (Nat.digits 10 r ++
              List.replicate (n - (Nat.digits 10 r).length) 0).dropWhile (· = 0) = [] then []
         else '.' :: (((Nat.digits 10 r ++
              List.replicate (n - (Nat.digits 10 r).length) 0).dropWhile
                (· = 0)).reverse.map digitChar))) =
        some ((v : Int), -(k : Int)) ∧
      k ≤ n ∧ v * 10 ^ (n - k) = q * 10 ^ n + r := by
  set dr := Nat.digits 10 r with hdr
  set fracLE := dr ++ List.replicate (n - dr.length) 0 with hfrac
  set trimmed := fracLE.dropWhile (· = 0) with htrim
  have hdrlen : dr.length ≤ n := digits_len_le_of_lt_pow hr
  have hfraclen : fracLE.length = n := by
    rw [hfrac]; simp; omega
  have hfracmem : ∀ x ∈ fracLE, x < 10 := by
    intro x hx
    rcases List.mem_append.mp hx with h | h
    · exact Nat.digits_lt_base (by norm_num) h
    · have := List.eq_of_mem_replicate h
      omega
  have hoffrac : Nat.ofDigits 10 fracLE = r := by
    rw [hfrac, Nat.ofDigits_append, hdr, Nat.ofDigits_digits,
      ofDigits_all_zero (fun x hx => List.eq_of_mem_replicate hx), mul_zero, add_zero]
  have hsplit : fracLE.takeWhile (· = 0) ++ trimmed = fracLE := by
    rw [htrim]
    exact List.takeWhile_append_dropWhile _ _
  have htkzero : ∀ y ∈ fracLE.takeWhile (· = 0), y = 0 := by
    intro y hy
    simpa using mem_takeWhile_pred _ fracLE y hy
  have hr_eq : r = 10 ^ (fracLE.takeWhile (· = 0)).length * Nat.ofDigits 10 trimmed := by
    conv_lhs => rw [← hoffrac, ← hsplit]
    rw [Nat.ofDigits_append, ofDigits_all_zero htkzero]
    ring
  have hlensum : (fracLE.takeWhile (· = 0)).length + trimmed.length = n := by
    have := congrArg List.length hsplit
    simp at this
    omega
  have htrimmem : ∀ x ∈ trimmed, x < 10 := by
    intro x hx
    exact hfracmem x ((List.dropWhile_sublist _).subset hx)
  by_cases hcase : trimmed = []
  · rw [if_pos hcase, List.append_nil]
    refine ⟨q, 0, ?_, by omega, ?_⟩
    · unfold parseUnsignedDec
      rw [splitDot_no_dot (all_digits_no_dot (natStrChars_all_digits q))]
      simp [natStrChars_ne_nil, natStrChars_all_digits, charsToNat_natStrChars]
    · have hr0 : r = 0 := by
        rw [hr_eq, hcase]
        simp [Nat.ofDigits]
      rw [hr0, Nat.sub_zero, add_zero]
  · rw [if_neg hcase]
    refine ⟨Nat.ofDigits 10 trimmed + 10 ^ trimmed.length * q, trimmed.length, ?_, by omega, ?_⟩
    · unfold parseUnsignedDec
      rw [splitDot_append_dot (trimmed.reverse.map digitChar)
        (all_digits_no_dot (natStrChars_all_digits q))]
      have hl2digits : (trimmed.reverse.map digitChar).all isDigitCh = true := by
        rw [List.all_eq_true]
        intro c hc
        obtain ⟨d, hd, rfl⟩ := List.mem_map.mp hc
        exact isDigitCh_digitChar (htrimmem d (List.mem_reverse.mp hd))
      have hall : (natStrChars q ++ trimmed.reverse.map digitChar).all isDigitCh = true := by
        rw [List.all_append, natStrChars_all_digits q, hl2digits]
        rfl
      have hne : natStrChars q ++ trimmed.reverse.map digitChar ≠ [] := by
        simp [natStrChars_ne_nil]
      have hct : charsToNat (trimmed.reverse.map digitChar) = Nat.ofDigits 10 trimmed := by
        unfold charsToNat
        rw [List.map_map]
        have hid : trimmed.reverse.map (charDigit ∘ digitChar) = trimmed.reverse.map id := by
          apply List.map_congr_left
          intro d hd
          simp [charDigit_digitChar (htrimmem d (List.mem_reverse.mp hd))]
        rw [hid, List.map_id, List.reverse_reverse]
      simp only [hne, hall, ne_eq, not_false_eq_true, and_self, if_true, if_pos]
      rw [charsToNat_append, charsToNat_natStrChars, hct]
      simp
    · have hlen2 : (fracLE.takeWhile (· = 0)).length = n - trimmed.length := by omega
      rw [hr_eq, hlen2]
      have hpow : (10 : ℕ) ^ trimmed.length * 10 ^ (n - trimmed.length) = 10 ^ n := by
        rw [← pow_add]
        congr 1
        omega
      calc (Nat.ofDigits 10 trimmed + 10 ^ trimmed.length * q) * 10 ^ (n - trimmed.length)
          = Nat.ofDigits 10 trimmed * 10 ^ (n - trimmed.length) +
            q * (10 ^ trimmed.length * 10 ^ (n - trimmed.length)) := by ring
        _ = Nat.ofDigits 10 trimmed * 10 ^ (n - trimmed.length) + q * 10 ^ n := by rw [hpow]
        _ = q * 10 ^ n + 10 ^ (n - trimmed.length) * Nat.ofDigits 10 trimmed := by ring
theorem decUnsignedChars_eq (a n : Nat) :
    decUnsignedChars a n = natStrChars (a / 10 ^ n) ++
      (if (Nat.digits 10 (a % 10 ^ n) ++
            List.replicate (n - (Nat.digits 10 (a % 10 ^ n)).length) 0).dropWhile
              (· = 0) = [] then []
       else '.' :: (((Nat.digits 10 (a % 10 ^ n) ++
            List.replicate (n - (Nat.digits 10 (a % 10 ^ n)).length) 0).dropWhile
              (· = 0)).reverse.map digitChar)) := by
  simp only [decUnsignedChars, natDigitsLE_eq_digits (by norm_num : 2 ≤ 10)]

theorem parseUnsigned_decUnsigned (a n : Nat) :
    ∃ v k : Nat, parseUnsignedDec (decUnsignedChars a n) = some ((v : Int), -(k : Int)) ∧
      k ≤ n ∧ v * 10 ^ (n - k) = a := by
  have h := parseUnsigned_print (a / 10 ^ n) (a % 10 ^ n) n
    (Nat.mod_lt _ (Nat.pos_pow_of_pos n (by norm_num)))
  rw [← decUnsignedChars_eq] at h
  obtain ⟨v, k, h1, h2, h3⟩ := h
  refine ⟨v, k, h1, h2, ?_⟩
  rw [h3, mul_comm (a / 10 ^ n) (10 ^ n), Nat.div_add_mod]

theorem decUnsignedChars_cons (a n : Nat) :
    ∃ c0 cs, decUnsignedChars a n = c0 :: cs ∧ isDigitCh c0 = true := by
  obtain ⟨t, ht⟩ : ∃ t, decUnsignedChars a n = natStrChars (a / 10 ^ n) ++ t :=
    ⟨_, decUnsignedChars_eq a n⟩
  obtain ⟨c0, cs0, hq⟩ := List.exists_cons_of_ne_nil (natStrChars_ne_nil (a / 10 ^ n))
  refine ⟨c0, cs0 ++ t, ?_, ?_⟩
  · rw [ht, hq, List.cons_append]
  · refine List.all_eq_true.mp (natStrChars_all_digits (a / 10 ^ n)) c0 ?_
    rw [hq]
    exact List.mem_cons_self _ _
theorem parse_decStr (d : Decimal) :
    ∃ v : Int, ∃ k : Nat, parseDecChars (decStrChars d) = some (v, -(k : Int)) ∧
      Decimal.val ⟨v, -(k : Int)⟩ = d.val := by
  have h10 : (10 : ℚ) ≠ 0 := by norm_num
  obtain ⟨A, n, hAn, hval⟩ :
      ∃ A n : Nat,
        decStrChars d = (if d.value < 0 then ['-'] else []) ++ decUnsignedChars A n ∧
        (A : ℚ) * (10 : ℚ) ^ (-(n : ℤ)) = (d.value.natAbs : ℚ) * (10 : ℚ) ^ d.exp := by
    by_cases he : 0 ≤ d.exp
    · refine ⟨d.value.natAbs * 10 ^ d.exp.toNat, 0, by rw [decStrChars, if_pos he], ?_⟩
      rw [show (-((0 : ℕ) : ℤ)) = (0 : ℤ) by norm_num, zpow_zero, mul_one]
      have hz : (10 : ℚ) ^ d.exp = 10 ^ (d.exp.toNat : ℕ) := by
        rw [← zpow_natCast (10 : ℚ) d.exp.toNat]
        congr 1
        omega
      rw [hz]
      push_cast
      ring
    · refine ⟨d.value.natAbs, (-d.exp).toNat, by rw [decStrChars, if_neg he], ?_⟩
      congr 2
      rw [Int.toNat_of_nonneg (by omega : (0 : ℤ) ≤ -d.exp)]
      ring
  obtain ⟨v, k, h1, h2, h3⟩ := parseUnsigned_decUnsigned A n
  have hvq : (v : ℚ) * (10 : ℚ) ^ (-(k : ℤ)) = (A : ℚ) * (10 : ℚ) ^ (-(n : ℤ)) := by
    have h3q : (v : ℚ) * 10 ^ ((n - k : ℕ)) = (A : ℚ) := by exact_mod_cast h3
    calc (v : ℚ) * 10 ^ (-(k : ℤ))
        = (v : ℚ) * (10 ^ ((n - k : ℕ)) * 10 ^ (-(n : ℤ))) := by
          congr 1
          rw [← zpow_natCast (10 : ℚ) (n - k), ← zpow_add₀ h10]
          congr 1
          omega
      _ = (A : ℚ) * 10 ^ (-(n : ℤ)) := by rw [← mul_assoc, h3q]
  by_cases hsign : d.value < 0
  · refine ⟨-(v : ℤ), k, ?_, ?_⟩
    · have hstep : parseDecChars ('-' :: decUnsignedChars A n) =
          (parseUnsignedDec (decUnsignedChars A n)).map (fun p => (-p.1, p.2)) := by
        simp [parseDecChars]
      rw [hAn, if_pos hsign, List.singleton_append, hstep, h1]
      rfl
    · have hcast : ((d.value.natAbs : ℚ)) = -(d.value : ℚ) := by
        rw [Int.cast_natAbs, abs_of_neg hsign]
        push_cast
        ring
      show ((-(v : ℤ) : ℤ) : ℚ) * (10 : ℚ) ^ (-(k : ℤ)) = (d.value : ℚ) * (10 : ℚ) ^ d.exp
      calc ((-(v : ℤ) : ℤ) : ℚ) * (10 : ℚ) ^ (-(k : ℤ))
          = -((v : ℚ) * 10 ^ (-(k : ℤ))) := by push_cast; ring
        _ = -((d.value.natAbs : ℚ) * 10 ^ d.exp) := by rw [hvq.trans hval]
        _ = (d.value : ℚ) * 10 ^ d.exp := by rw [hcast]; ring
  · refine ⟨(v : ℤ), k, ?_, ?_⟩
    · obtain ⟨c0, cs, hc, hdig⟩ := decUnsignedChars_cons A n
      have hstep : parseDecChars (c0 :: cs) = parseUnsignedDec (c0 :: cs) := by
        simp [parseDecChars, isDigitCh_ne_minus hdig, isDigitCh_ne_plus hdig]
      rw [hAn, if_neg hsign, List.nil_append, hc, hstep, ← hc]
      exact h1
    · have hcast : ((d.value.natAbs : ℚ)) = (d.value : ℚ) := by
        rw [Int.cast_natAbs, abs_of_nonneg (not_lt.mp hsign)]
      show (((v : ℤ) : ℤ) : ℚ) * (10 : ℚ) ^ (-(k : ℤ)) = (d.value : ℚ) * (10 : ℚ) ^ d.exp
      calc (((v : ℤ) : ℤ) : ℚ) * (10 : ℚ) ^ (-(k : ℤ))
          = (v : ℚ) * 10 ^ (-(k : ℤ)) := by push_cast; ring
        _ = (d.value.natAbs : ℚ) * 10 ^ d.exp := by rw [hvq.trans hval]
        _ = (d.value : ℚ) * 10 ^ d.exp := by rw [hcast]
theorem ensureInitialized_amount (m : Money) : (m.ensureInitialized).amount = m.amount := by
  cases m with
  | mk a c => cases c <;> rfl

theorem GetCurrency_unknown :
    GetCurrency UnknownCurrencyCode = some ⟨.UNKNOWN, "???", 2, "$", "$1", ".", ","⟩ := by
  decide

/-- C9: text marshalling followed by text unmarshalling succeeds, yields a
Money whose amount is numerically equal to the original amount, and always
sets the currency to the unknown sentinel code, whatever the original
currency was. -/
theorem c9_text_roundtrip (m : Money) :
    ∃ m2 : Money, Money.UnmarshalText (Money.MarshalText m) = (m2, true) ∧
      m2.amount.val = m.amount.val ∧
      m2.currency.map Currency.code = some UnknownCurrencyCode := by
  obtain ⟨v, k, h1, h2⟩ := parse_decStr m.amount
  refine ⟨⟨⟨v, -(k : ℤ)⟩, some ⟨.UNKNOWN, "???", 2, "$", "$1", ".", ","⟩⟩, ?_, h2, by rfl⟩
  simp only [Money.UnmarshalText, Money.MarshalText, Money.amountString,
    Decimal.decString, NewFromString, GetCurrency_unknown, ensureInitialized_amount]
  rw [h1]
theorem toUInt32_lt (e : Int) : toUInt32 e < 2 ^ 32 := by
  unfold toUInt32
  omega

theorem toInt32_toUInt32 {e : Int} (h1 : -(2 ^ 31) ≤ e) (h2 : e < 2 ^ 31) :
    toInt32 (toUInt32 e) = e := by
  unfold toInt32 toUInt32
  split <;> omega

theorem beBytesVal_putUInt32BE {u : Nat} (h : u < 2 ^ 32) :
    beBytesVal (putUInt32BE u) = u := by
  simp [beBytesVal, putUInt32BE]
  omega

theorem beBytesVal_reverse_ofDigits (l : List Nat) :
    beBytesVal l.reverse = Nat.ofDigits 256 l := by
  induction l with
  | nil => rfl
  | cons a rest ih =>
    rw [List.reverse_cons]
    have happ : beBytesVal (rest.reverse ++ [a]) = 256 * beBytesVal rest.reverse + a := by
      simp [beBytesVal, List.foldl_append]
      ring
    rw [happ, ih, Nat.ofDigits_cons]
    ring

theorem gobDecode_gobEncode (x : Int) : gobDecode (gobEncode x) = .ok x := by
  unfold gobEncode gobDecode
  have hb : beBytesVal ((natBytesLE x.natAbs).reverse) = x.natAbs := by
    unfold natBytesLE
    rw [natDigitsLE_eq_digits (by norm_num), beBytesVal_reverse_ofDigits, Nat.ofDigits_digits]
  by_cases hx : x < 0
  · rw [if_pos hx]
    simp only [hb]
    norm_num
    rw [abs_of_neg hx]
    ring
  · rw [if_neg hx]
    simp only [hb]
    norm_num
    omega

theorem bytesStr_strBytes (s : String) : bytesStr (strBytes s) = s := by
  unfold bytesStr strBytes
  rw [List.map_map]
  have hid : s.data.map (Char.ofNat ∘ Char.toNat) = s.data.map id := by
    apply List.map_congr_left
    intro c hc
    simp [Char.ofNat_toNat]
  rw [hid, List.map_id]

/-- C2: for every valid (currency, coefficient, exponent) triple — a
registered currency whose code is 3 characters, and an exponent in 32-bit
range — decoding the binary encoding yields a Money with identical amount
(coefficient and exponent) and the identical currency record. -/
theorem c2_binary_roundtrip (cur : Currency) (c e : Int)
    (hreg : GetCurrency cur.code = some cur)
    (hlen : cur.code.data.length = 3)
    (_hascii : ∀ ch ∈ cur.code.data, ch.toNat < 128)
    (he1 : -(2 ^ 31) ≤ e) (he2 : e < 2 ^ 31) :
    ∃ bs, Money.MarshalBinary ⟨⟨c, e⟩, some cur⟩ = some bs ∧
      Money.UnmarshalBinary bs = .ok ⟨⟨c, e⟩, some cur⟩ := by
  refine ⟨strBytes cur.code ++ putUInt32BE (toUInt32 e) ++ gobEncode c, rfl, ?_⟩
  set bs := strBytes cur.code ++ putUInt32BE (toUInt32 e) ++ gobEncode c with hbs
  have hsb : (strBytes cur.code).length = 3 := by simp [strBytes, hlen]
  have hput : (putUInt32BE (toUInt32 e)).length = 4 := by simp [putUInt32BE]
  have hlen8 : ¬(bs.length < 8) := by
    rw [hbs]
    simp [strBytes, putUInt32BE, gobEncode, hlen]
    omega
  have h1 : bs.take 3 = strBytes cur.code := by
    rw [hbs, List.append_assoc]
    exact List.take_left' hsb
  have h2 : (bs.drop 3).take 4 = putUInt32BE (toUInt32 e) := by
    rw [hbs, List.append_assoc, List.drop_left' hsb]
    exact List.take_left' hput
  have h3 : bs.drop 7 = gobEncode c := by
    rw [hbs, List.append_assoc, show (7 : ℕ) = 3 + 4 from rfl, ← List.drop_drop,
      List.drop_left' hsb, List.drop_left' hput]
  simp only [Money.UnmarshalBinary]
  rw [if_neg hlen8, h3, gobDecode_gobEncode, h1, bytesStr_strBytes, h2,
    beBytesVal_putUInt32BE (toUInt32_lt e), toInt32_toUInt32 he1 he2]
  simp only [NewFromBigInt, hreg]
/-- C3 (counterexample): under the USD-like descriptor (fraction 2,
grapheme "$", template "$1", decimal point ".", thousand ","), formatting
the Decimal -12345e-3 does NOT give "-$12.35" / "(12.35)": bank rounding
takes 12.345 to the even neighbor 12.34, not 12.35. -/
theorem c3_counterexample :
    Formatter.FormatCurrency ⟨2, ".", ",", "$", "$1"⟩ ⟨-12345, -3⟩ ≠ "-$12.35" ∧
    Formatter.FormatAccounting ⟨2, ".", ",", "$", "$1"⟩ ⟨-12345, -3⟩ ≠ "(12.35)" := by
  constructor <;> decide

/-- C3 (amended): under the USD-like descriptor, FormatCurrency of
-12345e-3 is "-$12.34" and FormatAccounting is "(12.34)" — the amount is
bank-rounded from 3 to 2 fraction digits, and 12.345 ties to the even
neighbor 12.34. -/
theorem c3_formatting :
    Formatter.FormatCurrency ⟨2, ".", ",", "$", "$1"⟩ ⟨-12345, -3⟩ = "-$12.34" ∧
    Formatter.FormatAccounting ⟨2, ".", ",", "$", "$1"⟩ ⟨-12345, -3⟩ = "(12.34)" := by
  constructor <;> decide

/-- C4 (counterexample): the 9-byte payload "ZZZ" ++ exponent 0 ++ the
big-int blob of coefficient 1 has an unregistered code and decodes without
error, but the result carries the zero amount and the bad-currency
sentinel — not the decoded coefficient 1 and not metadata keyed by "ZZZ"
as the claim states. -/
theorem c4_counterexample :
    Money.UnmarshalBinary [90, 90, 90, 0, 0, 0, 0, 2, 1] =
      .ok ⟨Decimal.Zero, some getBadCurrency⟩ ∧
    bytesStr [90, 90, 90] = "ZZZ" ∧
    GetCurrency "ZZZ" = none ∧
    gobDecode [2, 1] = .ok 1 ∧
    Decimal.Zero ≠ (⟨1, 0⟩ : Decimal) ∧
    getBadCurrency.code ≠ "ZZZ" := by
  exact ⟨rfl, by decide, by decide, rfl, by decide, by decide⟩

/-- C4 (amended): for every payload of at least 8 bytes whose first three
bytes spell an unregistered code and whose tail is a well-formed big-int
blob, UnmarshalBinary reports no error, but the resulting Money has the
zero amount and the bad-currency sentinel: the constructor error is
silently discarded, and neither the decoded amount nor default metadata
keyed by the code string is preserved. -/
theorem c4_unknown_code_decode (data : List Nat) (v : Int)
    (h8 : ¬(data.length < 8))
    (hcode : GetCurrency (bytesStr (data.take 3)) = none)
    (hgob : gobDecode (data.drop 7) = .ok v) :
    Money.UnmarshalBinary data = .ok ⟨Decimal.Zero, some getBadCurrency⟩ := by
  simp only [Money.UnmarshalBinary]
  rw [if_neg h8, hgob]
  simp only [NewFromBigInt, hcode]

theorem c4_unknown_code_decode_witness :
    Money.UnmarshalBinary [90, 90, 90, 0, 0, 0, 0, 2, 1] =
      .ok ⟨Decimal.Zero, some getBadCurrency⟩ :=
  c4_unknown_code_decode [90, 90, 90, 0, 0, 0, 0, 2, 1] 1 (by decide) (by decide) rfl

/-- C5: the claim says a zero-value Money (nil currency) is coerced to the
unknown sentinel at first use by every exported method, naming
MarshalBinary and Avg; but MarshalBinary reads the currency code before any
initialization and Avg reads the first element's currency code directly, so
both dereference the nil currency and abort (`none`), while methods such as
Abs and Add do coerce it.  This contradicts the documented intent of
`ensureInitialized` ("so we can at least not crash things too badly"). -/
theorem c5_zero_value_money :
    Money.MarshalBinary ⟨⟨0, 0⟩, none⟩ = none ∧
    Money.Avg ⟨⟨0, 0⟩, none⟩ [] = none ∧
    (Money.Abs ⟨⟨0, 0⟩, none⟩).currency = some getUnknownCurrency ∧
    Money.Add ⟨⟨0, 0⟩, none⟩ ⟨⟨0, 0⟩, none⟩ =
      some ⟨⟨0, 0⟩, some getUnknownCurrency⟩ := by
  exact ⟨rfl, rfl, by decide, by decide⟩

/-- C6: Round uses round-half-away-from-zero and RoundBank uses
round-half-to-even: Round(5.45, 1) = 5.5 and Round(-5.45, 1) = -5.5, while
RoundBank(5.45, 1) = 5.4 and RoundBank(5.55, 1) = 5.6, on Money values of
a registered currency. -/
theorem c6_rounding_modes :
    (Money.Round ⟨⟨545, -2⟩, GetCurrency "AUD"⟩ 1).amount = ⟨55, -1⟩ ∧
    Decimal.val ⟨55, -1⟩ = 5.5 ∧
    (Money.Round ⟨⟨-545, -2⟩, GetCurrency "AUD"⟩ 1).amount = ⟨-55, -1⟩ ∧
    Decimal.val ⟨-55, -1⟩ = -5.5 ∧
    (Money.RoundBank ⟨⟨545, -2⟩, GetCurrency "AUD"⟩ 1).amount = ⟨54, -1⟩ ∧
    Decimal.val ⟨54, -1⟩ = 5.4 ∧
    (Money.RoundBank ⟨⟨555, -2⟩, GetCurrency "AUD"⟩ 1).amount = ⟨56, -1⟩ ∧
    Decimal.val ⟨56, -1⟩ = 5.6 := by
  refine ⟨by decide, ?_, by decide, ?_, by decide, ?_, by decide, ?_⟩ <;>
    norm_num [Decimal.val]

/-- C7: RoundCash accepts only the intervals 5, 10, 15, 25, 50, 100 — any
other interval is a fatal error (`none`) for every Money — and rounds to
the nearest multiple of the interval in hundredths: RoundCash(3.43, 5) =
3.45 and RoundCash(3.50, 100) = 4.00. -/
theorem c7_round_cash :
    (∀ (m : Money) (interval : Nat),
      ¬(interval = 5 ∨ interval = 10 ∨ interval = 15 ∨ interval = 25 ∨
        interval = 50 ∨ interval = 100) →
      Money.RoundCash m interval = none) ∧
    (Money.RoundCash ⟨⟨343, -2⟩, GetCurrency "USD"⟩ 5).map Money.amount =
      some ⟨345, -2⟩ ∧
    Decimal.val ⟨345, -2⟩ = 3.45 ∧
    (Money.RoundCash ⟨⟨350, -2⟩, GetCurrency "USD"⟩ 100).map Money.amount =
      some ⟨400, -2⟩ ∧
    Decimal.val ⟨400, -2⟩ = 4 := by
  refine ⟨?_, by decide, by norm_num [Decimal.val], by decide, by norm_num [Decimal.val]⟩
  intro m interval h
  simp [Money.RoundCash, Decimal.RoundCash, h]

theorem c7_round_cash_witness :
    Money.RoundCash ⟨⟨100, -2⟩, GetCurrency "USD"⟩ 7 = none :=
  c7_round_cash.1 ⟨⟨100, -2⟩, GetCurrency "USD"⟩ 7 (by decide)
theorem ensureInitialized_currency (m : Money) :
    ∃ c, (m.ensureInitialized).currency = some c ∧ c.code = m.resolvedCode := by
  cases m with
  | mk a cur =>
    cases cur with
    | none => exact ⟨getUnknownCurrency, rfl, rfl⟩
    | some c => exact ⟨c, rfl, rfl⟩

theorem ensureInitialized_of_some {m : Money} {c : Currency} (h : m.currency = some c) :
    m.ensureInitialized = m := by
  cases m with
  | mk a cur =>
    cases cur with
    | none => exact absurd h (by simp)
    | some c0 => rfl

/-- C1: every binary operation between two Money values whose resolved
currency codes differ aborts (`none`, the panic), producing no result at
all; with equal resolved codes Add succeeds, and in particular
Add(Money("USD",1,0), Money("USD",2,0)) equals Money("USD",3,0). -/
theorem c1_currency_mismatch_fatal :
    (∀ m1 m2 : Money, m1.resolvedCode ≠ m2.resolvedCode →
      Money.Add m1 m2 = none ∧ Money.Sub m1 m2 = none ∧ Money.Mul m1 m2 = none ∧
      (∀ p, Money.DivRound m1 m2 p = none) ∧ Money.Div m1 m2 = none ∧
      (∀ p, Money.QuoRem m1 m2 p = none) ∧ Money.Mod m1 m2 = none ∧
      Money.Pow m1 m2 = none ∧ Money.Cmp m1 m2 = none) ∧
    (∀ m1 m2 : Money, m1.resolvedCode = m2.resolvedCode →
      (Money.Add m1 m2).isSome = true) ∧
    Money.Add (New "USD" 1 0).1 (New "USD" 2 0).1 = some (New "USD" 3 0).1 := by
  refine ⟨?_, ?_, by decide⟩
  · intro m1 m2 h
    obtain ⟨c1, hc1, he1⟩ := ensureInitialized_currency m1
    obtain ⟨c2, hc2, he2⟩ := ensureInitialized_currency m2
    have hne : ¬(c1.code = c2.code) := by rw [he1, he2]; exact h
    refine ⟨?_, ?_, ?_, ?_, ?_, ?_, ?_, ?_, ?_⟩
    · simp only [Money.Add, hc1, hc2, if_neg hne]
    · simp only [Money.Sub, hc1, hc2, if_neg hne]
    · simp only [Money.Mul, hc1, hc2, if_neg hne]
    · intro p; simp only [Money.DivRound, hc1, hc2, if_neg hne]
    · simp only [Money.Div, Money.DivRound, hc1, hc2, if_neg hne]
    · intro p; simp only [Money.QuoRem, hc1, hc2, if_neg hne]
    · simp only [Money.Mod, hc1, hc2, if_neg hne]
    · simp only [Money.Pow, hc1, hc2, if_neg hne]
    · simp only [Money.Cmp, hc1, hc2, if_neg hne]
  · intro m1 m2 h
    obtain ⟨c1, hc1, he1⟩ := ensureInitialized_currency m1
    obtain ⟨c2, hc2, he2⟩ := ensureInitialized_currency m2
    have heq : c1.code = c2.code := by rw [he1, he2]; exact h
    simp only [Money.Add, hc1, hc2, if_pos heq, Option.isSome_some]

theorem c1_currency_mismatch_fatal_witness :
    Money.Add (New "USD" 1 0).1 (New "EUR" 1 0).1 = none ∧
    Money.Cmp (New "USD" 1 0).1 (New "EUR" 1 0).1 = none ∧
    (Money.Add (New "USD" 1 0).1 (New "USD" 2 0).1).isSome = true :=
  ⟨(c1_currency_mismatch_fatal.1 (New "USD" 1 0).1 (New "EUR" 1 0).1 (by decide)).1,
   (c1_currency_mismatch_fatal.1 (New "USD" 1 0).1 (New "EUR" 1 0).1 (by decide)).2.2.2.2.2.2.2.2,
   c1_currency_mismatch_fatal.2.1 (New "USD" 1 0).1 (New "USD" 2 0).1 (by decide)⟩

/-- C8: UpdateCurrency succeeds exactly while the Money's currency is still
the unknown sentinel code and the new code is registered; an
already-resolved currency or an unregistered new code yields a reported
error (a returned result, never the panic `none`) with the Money's amount
and currency unchanged. -/
theorem c8_update_currency :
    (∀ (m : Money) (c : Currency) (newCurr : String) (c2 : Currency),
      m.currency = some c → c.code = UnknownCurrencyCode →
      GetCurrency newCurr = some c2 →
      Money.UpdateCurrency m newCurr = some ({ m with currency := some c2 }, true)) ∧
    (∀ (m : Money) (c : Currency) (newCurr : String),
      m.currency = some c → c.code ≠ UnknownCurrencyCode →
      Money.UpdateCurrency m newCurr = some (m, false)) ∧
    (∀ (m : Money) (c : Currency) (newCurr : String),
      m.currency = some c → c.code = UnknownCurrencyCode →
      GetCurrency newCurr = none →
      Money.UpdateCurrency m newCurr = some (m, false)) := by
  refine ⟨?_, ?_, ?_⟩
  · intro m c newCurr c2 hm hcode hreg
    simp only [Money.UpdateCurrency, hm, hcode, hreg, ne_eq, not_true_eq_false, if_false]
  · intro m c newCurr hm hcode
    simp only [Money.UpdateCurrency, hm, ne_eq, hcode, not_false_eq_true, if_true]
  · intro m c newCurr hm hcode hreg
    simp only [Money.UpdateCurrency, hm, hcode, hreg, ne_eq, not_true_eq_false, if_false]
theorem c8_update_currency_witness :
    Money.UpdateCurrency ⟨⟨5, 0⟩, GetCurrency "???"⟩ "USD" =
      some (⟨⟨5, 0⟩, GetCurrency "USD"⟩, true) ∧
    Money.UpdateCurrency ⟨⟨5, 0⟩, GetCurrency "USD"⟩ "EUR" =
      some (⟨⟨5, 0⟩, GetCurrency "USD"⟩, false) ∧
    Money.UpdateCurrency ⟨⟨5, 0⟩, GetCurrency "???"⟩ "ZZZ" =
      some (⟨⟨5, 0⟩, GetCurrency "???"⟩, false) :=
  ⟨c8_update_currency.1 ⟨⟨5, 0⟩, GetCurrency "???"⟩ ⟨.UNKNOWN, "???", 2, "$", "$1", ".", ","⟩
      "USD" ⟨.FIAT, "USD", 2, "$", "$1", ".", ","⟩ (by decide) (by decide) (by decide),
   c8_update_currency.2.1 ⟨⟨5, 0⟩, GetCurrency "USD"⟩ ⟨.FIAT, "USD", 2, "$", "$1", ".", ","⟩
      "EUR" (by decide) (by decide),
   c8_update_currency.2.2 ⟨⟨5, 0⟩, GetCurrency "???"⟩ ⟨.UNKNOWN, "???", 2, "$", "$1", ".", ","⟩
      "ZZZ" (by decide) (by decide) (by decide)⟩
/-- C10: every amount-transforming operation preserves the currency: for a
Money with a non-nil currency, every unary transformation keeps the very
same currency record, every binary operation on a same-code operand gives a
result carrying the first operand's currency, and of QuoRem's two results
the quotient carries the first operand's currency while the remainder
carries the second operand's — whose code equals the first's. -/
theorem c10_currency_preserved (m m2 : Money) (cur cur2 : Currency)
    (hm : m.currency = some cur) (hm2 : m2.currency = some cur2)
    (hcode : cur.code = cur2.code) :
    (Money.Abs m).currency = some cur ∧
    (Money.Neg m).currency = some cur ∧
    (∀ s, (Money.Shift m s).currency = some cur) ∧
    (∀ p, (Money.Round m p).currency = some cur) ∧
    (∀ p, (Money.RoundBank m p).currency = some cur) ∧
    (∀ i r, Money.RoundCash m i = some r → r.currency = some cur) ∧
    (Money.Floor m).currency = some cur ∧
    (Money.Ceil m).currency = some cur ∧
    (∀ p, (Money.Truncate m p).currency = some cur) ∧
    (∀ r, Money.Add m m2 = some r → r.currency = some cur) ∧
    (∀ r, Money.Sub m m2 = some r → r.currency = some cur) ∧
    (∀ r, Money.Mul m m2 = some r → r.currency = some cur) ∧
    (∀ p r, Money.DivRound m m2 p = some r → r.currency = some cur) ∧
    (∀ r, Money.Div m m2 = some r → r.currency = some cur) ∧
    (∀ r, Money.Mod m m2 = some r → r.currency = some cur) ∧
    (∀ r, Money.Pow m m2 = some r → r.currency = some cur) ∧
    (∀ p q r, Money.QuoRem m m2 p = some (q, r) →
      q.currency = some cur ∧ r.currency.map Currency.code = some cur.code) := by
  have hi : m.ensureInitialized = m := ensureInitialized_of_some hm
  have hi2 : m2.ensureInitialized = m2 := ensureInitialized_of_some hm2
  refine ⟨?_, ?_, ?_, ?_, ?_, ?_, ?_, ?_, ?_, ?_, ?_, ?_, ?_, ?_, ?_, ?_, ?_⟩
  · simp [Money.Abs, hi, hm]
  · simp [Money.Neg, hi, hm]
  · intro s; simp [Money.Shift, hi, hm]
  · intro p; simp [Money.Round, hi, hm]
  · intro p; simp [Money.RoundBank, hi, hm]
  · intro i r hr
    simp only [Money.RoundCash, hi, hm, Option.map_eq_some'] at hr
    obtain ⟨a, ha, rfl⟩ := hr
    rfl
  · simp [Money.Floor, hi, hm]
  · simp [Money.Ceil, hi, hm]
  · intro p; simp [Money.Truncate, hi, hm]
  · intro r hr
    simp only [Money.Add, hi, hi2, hm, hm2, if_pos hcode, Option.some.injEq] at hr
    rw [← hr]
  · intro r hr
    simp only [Money.Sub, hi, hi2, hm, hm2, if_pos hcode, Option.some.injEq] at hr
    rw [← hr]
  · intro r hr
    simp only [Money.Mul, hi, hi2, hm, hm2, if_pos hcode, Option.some.injEq] at hr
    rw [← hr]
  · intro p r hr
    simp only [Money.DivRound, hi, hi2, hm, hm2, if_pos hcode, Option.map_eq_some'] at hr
    obtain ⟨a, ha, rfl⟩ := hr
    rfl
  · intro r hr
    simp only [Money.Div, Money.DivRound, hi, hi2, hm, hm2, if_pos hcode,
      Option.map_eq_some'] at hr
    obtain ⟨a, ha, rfl⟩ := hr
    rfl
  · intro r hr
    simp only [Money.Mod, hi, hi2, hm, hm2, if_pos hcode, Option.map_eq_some'] at hr
    obtain ⟨a, ha, rfl⟩ := hr
    rfl
  · intro r hr
    simp only [Money.Pow, hi, hi2, hm, hm2, if_pos hcode, Option.map_eq_some'] at hr
    obtain ⟨a, ha, rfl⟩ := hr
    rfl
  · intro p q r hr
    simp only [Money.QuoRem, hi, hi2, hm, hm2, if_pos hcode, Option.map_eq_some'] at hr
    obtain ⟨a, ha, heq⟩ := hr
    have hq : q = ⟨a.1, some cur⟩ := by
      have := congrArg Prod.fst heq
      exact this.symm
    have hrr : r = ⟨a.2, some cur2⟩ := by
      have := congrArg Prod.snd heq
      exact this.symm
    subst hq
    subst hrr
    exact ⟨rfl, by simp [hcode]⟩

theorem c10_currency_preserved_witness :
    (Money.Abs ⟨⟨5, 0⟩, GetCurrency "USD"⟩).currency =
      some ⟨.FIAT, "USD", 2, "$", "$1", ".", ","⟩ ∧
    (Money.Round ⟨⟨5, 0⟩, GetCurrency "USD"⟩ 1).currency =
      some ⟨.FIAT, "USD", 2, "$", "$1", ".", ","⟩ ∧
    (⟨⟨7, 0⟩, GetCurrency "USD"⟩ : Money).currency =
      some ⟨.FIAT, "USD", 2, "$", "$1", ".", ","⟩ :=
  ⟨(c10_currency_preserved ⟨⟨5, 0⟩, GetCurrency "USD"⟩ ⟨⟨2, 0⟩, GetCurrency "USD"⟩
      ⟨.FIAT, "USD", 2, "$", "$1", ".", ","⟩ ⟨.FIAT, "USD", 2, "$", "$1", ".", ","⟩
      (by decide) (by decide) rfl).1,
   (c10_currency_preserved ⟨⟨5, 0⟩, GetCurrency "USD"⟩ ⟨⟨2, 0⟩, GetCurrency "USD"⟩
      ⟨.FIAT, "USD", 2, "$", "$1", ".", ","⟩ ⟨.FIAT, "USD", 2, "$", "$1", ".", ","⟩
      (by decide) (by decide) rfl).2.2.2.1 1,
   (c10_currency_preserved ⟨⟨5, 0⟩, GetCurrency "USD"⟩ ⟨⟨2, 0⟩, GetCurrency "USD"⟩
      ⟨.FIAT, "USD", 2, "$", "$1", ".", ","⟩ ⟨.FIAT, "USD", 2, "$", "$1", ".", ","⟩
      (by decide) (by decide) rfl).2.2.2.2.2.2.2.2.2.1 ⟨⟨7, 0⟩, GetCurrency "USD"⟩
      (by decide)⟩
theorem c2_binary_roundtrip_witness :
    ∃ bs, Money.MarshalBinary
        ⟨⟨12345, -3⟩, some ⟨.FIAT, "USD", 2, "$", "$1", ".", ","⟩⟩ = some bs ∧
      Money.UnmarshalBinary bs =
        .ok ⟨⟨12345, -3⟩, some ⟨.FIAT, "USD", 2, "$", "$1", ".", ","⟩⟩ :=
  c2_binary_roundtrip ⟨.FIAT, "USD", 2, "$", "$1", ".", ","⟩ 12345 (-3)
    (by decide) (by decide) (by decide) (by decide) (by decide)
